import Mathlib

set_option maxHeartbeats 1600000
set_option maxRecDepth 8000
set_option linter.unusedVariables false
set_option linter.unreachableTactic false
set_option linter.unusedTactic false

/-!
Shallow embedding of the schema-conditional resolution and validation engine
of the repository: `src/src/schema/conditional.ts` (isValidAgainst,
mergeSchemas, resolveEffectiveSchema with its inner visit,
pruneDataAgainstSchema) and the `validate` function of
`src/src/schema/DynamicForm.tsx`, together with theorems settling the
frozen claims about them.
-/

/-- JS runtime values flowing through the schema engine.  JS numbers are
modelled as rationals: NaN and the infinities are outside the model, so
`Number.isFinite` is always true and `Number.isInteger` is `den = 1`.
`undefined` is JS `undefined` (the read of an absent object key). -/
inductive JsonValue : Type where
  | undefined : JsonValue
  | null : JsonValue
  | str : String → JsonValue
  | num : Rat → JsonValue
  | bool : Bool → JsonValue
  | arr : List JsonValue → JsonValue
  | obj : List (String × JsonValue) → JsonValue

/-- The six values of the `type` discriminator of a SchemaField
(src/src/schema/types.ts). -/
inductive SchemaType : Type where
  | str | num | int | bool | arr | obj
deriving DecidableEq

/-- SchemaField (src/src/schema/types.ts).  `type` is `Option` because the
code reads it defensively (`schemaNode.type ?? "object"` in DynamicForm,
the final permissive `return true` of isValidAgainst); `cst` is the ad-hoc
`const` field accepted by isValidAgainst though absent from the TS
interface; `sif`/`sthen`/`selse` embed `if`/`then`/`else` (Lean keywords).
The display-only `oneOf` and `$order` fields are omitted: none of the
embedded functions consults them. -/
inductive SchemaField : Type where
  | mk
      (type : Option SchemaType)
      (title : Option String)
      (description : Option String)
      (enum : Option (List JsonValue))
      (cst : Option JsonValue)
      (sif : Option SchemaField)
      (sthen : Option SchemaField)
      (selse : Option SchemaField)
      (properties : Option (List (String × SchemaField)))
      (items : Option SchemaField)
      (required : Option (List String))

def SchemaField.type : SchemaField → Option SchemaType
  | .mk t _ _ _ _ _ _ _ _ _ _ => t

def SchemaField.title : SchemaField → Option String
  | .mk _ ti _ _ _ _ _ _ _ _ _ => ti

def SchemaField.description : SchemaField → Option String
  | .mk _ _ d _ _ _ _ _ _ _ _ => d

def SchemaField.enum : SchemaField → Option (List JsonValue)
  | .mk _ _ _ e _ _ _ _ _ _ _ => e

def SchemaField.cst : SchemaField → Option JsonValue
  | .mk _ _ _ _ c _ _ _ _ _ _ => c

def SchemaField.sif : SchemaField → Option SchemaField
  | .mk _ _ _ _ _ i _ _ _ _ _ => i

def SchemaField.sthen : SchemaField → Option SchemaField
  | .mk _ _ _ _ _ _ t _ _ _ _ => t

def SchemaField.selse : SchemaField → Option SchemaField
  | .mk _ _ _ _ _ _ _ e _ _ _ => e

def SchemaField.properties : SchemaField → Option (List (String × SchemaField))
  | .mk _ _ _ _ _ _ _ _ p _ _ => p

def SchemaField.items : SchemaField → Option SchemaField
  | .mk _ _ _ _ _ _ _ _ _ it _ => it

def SchemaField.required : SchemaField → Option (List String)
  | .mk _ _ _ _ _ _ _ _ _ _ r => r

/-- `schema.properties ?? {}` as a list of entries. -/
def SchemaField.propsD (s : SchemaField) : List (String × SchemaField) :=
  s.properties.getD []

/-- `schema.required ?? []`. -/
def SchemaField.reqD (s : SchemaField) : List String :=
  s.required.getD []

/-- Replace just the `properties` field (the `{...working, properties: p}`
spread of the source). -/
def setProps : SchemaField → Option (List (String × SchemaField)) → SchemaField
  | .mk t ti d e c i th el _ it r, p => .mk t ti d e c i th el p it r

/-- Replace just the `items` field (the `{...working, items: i}` spread). -/
def setItems : SchemaField → Option SchemaField → SchemaField
  | .mk t ti d e c i th el p _ r, it => .mk t ti d e c i th el p it r

/-- JsonSchema root shape (src/src/schema/types.ts): fixed `type: "object"`,
`properties` always present. -/
structure JsonSchema : Type where
  title : Option String
  description : Option String
  properties : List (String × SchemaField)
  required : Option (List String)
  sif : Option SchemaField
  sthen : Option SchemaField
  selse : Option SchemaField

/-- `a ?? b` on optional fields; also the per-field effect of the JS spread
`{...base, ...overlay}` (overlay's present field wins). -/
def oor {α : Type} : Option α → Option α → Option α
  | some x, _ => some x
  | none, b => b

/-- Strict lookup `obj[k]`: the read of an absent key is `undefined`. -/
def jget : List (String × JsonValue) → String → JsonValue
  | [], _ => .undefined
  | (k2, v) :: rest, k => if k2 = k then v else jget rest k

/-- `key in obj`. -/
def hasKey : List (String × JsonValue) → String → Bool
  | [], _ => false
  | (k2, _) :: rest, k => k2 == k || hasKey rest k

/-- First-match association lookup (the read `record[k]` for schema maps). -/
def alookup {α : Type} : List (String × α) → String → Option α
  | [], _ => none
  | (k2, v) :: rest, k => if k2 = k then some v else alookup rest k

/-- `typeof v === "object" && v !== null && !Array.isArray(v)` —
the `isRecord` helper of DynamicForm and the inline checks of
conditional.ts. -/
def isRecordB : JsonValue → Bool
  | .obj _ => true
  | _ => false

/-- The record fields of `v` when it is a plain object, else `{}`
(the `(typeof value === "object" && value !== null && !Array.isArray(value))
? value : {}` pattern). -/
def recFields : JsonValue → List (String × JsonValue)
  | .obj kvs => kvs
  | _ => []

/-- The elements of `v` when it is an array, else `[]`
(`Array.isArray(data) ? data : []`). -/
def elemsOf : JsonValue → List JsonValue
  | .arr xs => xs
  | _ => []

/-- `arr[0]` of `Array.isArray(value) ? value : []`: first element, or
`undefined` when the value is not an array or is empty. -/
def jsFirst : JsonValue → JsonValue
  | .arr (x :: _) => x
  | _ => .undefined

/-- `v === undefined || v === null || v === ""` — the emptiness test of the
required-key checks.  `0` and `false` are not emptyish. -/
def isEmptyish : JsonValue → Bool
  | .undefined => true
  | .null => true
  | .str s => s == ""
  | _ => false

/-- `typeof v === "object" && v !== null` (arrays included):
the recursion guard of isValidAgainst's property walk. -/
def isObjLike : JsonValue → Bool
  | .obj _ => true
  | .arr _ => true
  | _ => false

/-- JS `===` as used between a schema-side literal (enum entry, const) and a
data value.  Primitives compare by value; object/array operands coming from
the two distinct sides are distinct references, hence `false`. -/
def jsStrictEq : JsonValue → JsonValue → Bool
  | .undefined, .undefined => true
  | .null, .null => true
  | .str a, .str b => a == b
  | .num a, .num b => a == b
  | .bool a, .bool b => a == b
  | _, _ => false

/-- `new Set(l)` materialised back as a list: first occurrences, in order. -/
def dedupGo : List String → List String → List String
  | [], _ => []
  | x :: xs, seen => if x ∈ seen then dedupGo xs seen else x :: dedupGo xs (x :: seen)

/-- `Array.from(new Set(l))`. -/
def jsSetDedup (l : List String) : List String := dedupGo l []

/-- Keys of a schema property map are pairwise distinct (always true of a JS
record; association lists admit junk duplicates the source can never see). -/
def nodupKeys {α : Type} : List (String × α) → Bool
  | [] => true
  | (k, _) :: rest => !(rest.any (fun p => p.1 == k)) && nodupKeys rest

/-! Size lemmas used by the termination arguments. -/

theorem sizeOf_lt_of_properties {s : SchemaField} {ps : List (String × SchemaField)}
    (h : s.properties = some ps) : sizeOf ps < sizeOf s := by
  cases s with
  | mk t ti d e c i th el p it r =>
    simp [SchemaField.properties] at h
    subst h
    simp
    omega

theorem sizeOf_lt_of_items {s : SchemaField} {it : SchemaField}
    (h : s.items = some it) : sizeOf it < sizeOf s := by
  cases s with
  | mk t ti d e c i th el p it0 r =>
    simp [SchemaField.items] at h
    subst h
    simp
    omega

theorem sizeOf_lt_of_sthen {s : SchemaField} {b : SchemaField}
    (h : s.sthen = some b) : sizeOf b < sizeOf s := by
  cases s with
  | mk t ti d e c i th el p it r =>
    simp [SchemaField.sthen] at h
    subst h
    simp
    omega

theorem sizeOf_lt_of_selse {s : SchemaField} {b : SchemaField}
    (h : s.selse = some b) : sizeOf b < sizeOf s := by
  cases s with
  | mk t ti d e c i th el p it r =>
    simp [SchemaField.selse] at h
    subst h
    simp
    omega

theorem sizeOf_propsD_lt (s : SchemaField) : sizeOf s.propsD < sizeOf s := by
  cases s with
  | mk t ti d e c i th el p it r =>
    cases p <;> simp [SchemaField.propsD, SchemaField.properties, Option.getD] <;> omega

theorem sizeOf_getD_list {α : Type} [SizeOf α] (o : Option (List α)) :
    sizeOf (o.getD []) ≤ sizeOf o := by
  cases o <;> simp [Option.getD]

theorem alookup_sizeOf {α : Type} [SizeOf α] {l : List (String × α)} {k : String} {v : α}
    (h : alookup l k = some v) : sizeOf v < sizeOf l := by
  induction l with
  | nil => simp [alookup] at h
  | cons hd tl ih =>
    obtain ⟨k2, v2⟩ := hd
    simp only [alookup] at h
    by_cases hk : k2 = k
    · simp [hk] at h
      subst h
      simp
      omega
    · simp [hk] at h
      have := ih h
      simp
      omega

/-! `isValidAgainst` — src/src/schema/conditional.ts lines 11-64. -/

mutual

/-- Minimal validator used to evaluate `if` conditions
(conditional.ts `isValidAgainst`): object data must be a record whose
required keys are present and non-emptyish and whose declared properties
pass the shallow enum/const checks; array data must be an array whose
elements all satisfy `items` (vacuously true when empty or no `items`);
primitive types check the JS runtime kind; an absent/unknown `type`
succeeds unconditionally. -/
def isValidAgainst : SchemaField → JsonValue → Bool
  | .mk t _ _ _ _ _ _ _ p it r, d =>
    match t with
    | some SchemaType.obj =>
      match d with
      | .obj kvs =>
        (match r with
         | some req => req.all (fun k => hasKey kvs k && !(isEmptyish (jget kvs k)))
         | none => true)
        && ivaProps (p.getD []) kvs
      | _ => false
    | some SchemaType.arr =>
      match d with
      | .arr xs =>
        match it with
        | some itv => xs.all (fun x => isValidAgainst itv x)
        | none => true
      | _ => false
    | some SchemaType.str => match d with | .str _ => true | _ => false
    | some SchemaType.num => match d with | .num _ => true | _ => false
    | some SchemaType.int => match d with | .num q => q.den == 1 | _ => false
    | some SchemaType.bool => match d with | .bool _ => true | _ => false
    | none => true
termination_by s _ => sizeOf s
decreasing_by
  all_goals simp_wf
  all_goals first
    | omega
    | (simp; omega)
    | exact Nat.lt_of_le_of_lt (sizeOf_getD_list _) (by omega)
    | exact Nat.lt_of_le_of_lt (sizeOf_getD_list _) (by simp; omega)

/-- The `properties` loop of isValidAgainst (conditional.ts lines 28-46):
for each declared property with a defined data value, check `enum`
membership, the ad-hoc `const`, and recurse into object-typed children
whose value is a non-null object. -/
def ivaProps : List (String × SchemaField) → List (String × JsonValue) → Bool
  | [], _ => true
  | (k, cs) :: rest, kvs =>
    (match jget kvs k with
     | .undefined => true
     | v =>
       (match cs.enum with
        | some es => es.any (fun x => jsStrictEq x v)
        | none => true)
       &&
       (match cs.cst with
        | some c => jsStrictEq v c
        | none => true)
       &&
       (if cs.type = some SchemaType.obj ∧ isObjLike v then isValidAgainst cs v
        else true))
    && ivaProps rest kvs
termination_by props _ => sizeOf props
decreasing_by
  all_goals simp_wf
  all_goals first | omega | (simp; omega)

end

/-! `mergeSchemas` — conditional.ts lines 78-107. -/

theorem oor_eq_some {α : Type} {x y : Option α} {z : α}
    (h : oor x y = some z) : x = some z ∨ y = some z := by
  cases x <;> simp [oor] at h <;> simp [h]

/-- `base.type === "object" || overlay.type === "object"` — the guard of the
properties-union clause of mergeSchemas (conditional.ts line 86). -/
def objClause (b o : SchemaField) : Prop :=
  b.type = some SchemaType.obj ∨ o.type = some SchemaType.obj

instance (b o : SchemaField) : Decidable (objClause b o) := by
  unfold objClause
  infer_instance

/-- `(base.type === "array" || overlay.type === "array") && (base.items ||
overlay.items)` — the guard of the items clause (conditional.ts line 100). -/
def arrClause (b o : SchemaField) : Prop :=
  (b.type = some SchemaType.arr ∨ o.type = some SchemaType.arr)
    ∧ (b.items.isSome ∨ o.items.isSome)

instance (b o : SchemaField) : Decidable (arrClause b o) := by
  unfold arrClause
  infer_instance

mutual

/-- Deep merge overlaying `o` onto `b` (conditional.ts `mergeSchemas`):
start from the spread `{...base, ...overlay}`; `required` becomes the
deduplicated union when either side has one; if either `type` is `"object"`
the properties maps are key-unioned with recursive merges; if either `type`
is `"array"` and either side has `items`, the items are merged (a lone
`items` is merged with itself). -/
def mergeSchemas (b o : SchemaField) : SchemaField :=
  let req2 : Option (List String) :=
    if b.required.isSome || o.required.isSome then
      some (jsSetDedup (b.reqD ++ o.reqD))
    else oor o.required b.required
  let props2 : Option (List (String × SchemaField)) :=
    if objClause b o then
      some (mergeProps (jsSetDedup (b.propsD.map Prod.fst ++ o.propsD.map Prod.fst))
        b.propsD o.propsD)
    else oor o.properties b.properties
  -- `const bi = base.items ?? overlay.items!; const oi = overlay.items ??
  -- base.items!; items = mergeSchemas(bi, oi)`: a lone `items` is merged
  -- with itself; the both-absent arm is unreachable under the guard.
  let items2 : Option SchemaField :=
    if arrClause b o then
      match hbi : b.items, hoi : o.items with
      | some bi, some oi => some (mergeSchemas bi oi)
      | some bi, none => some (mergeSchemas bi bi)
      | none, some oi => some (mergeSchemas oi oi)
      | none, none => oor o.items b.items
    else oor o.items b.items
  let type2 : Option SchemaType :=
    if arrClause b o then some SchemaType.arr
    else if objClause b o then some SchemaType.obj
    else oor o.type b.type
  .mk type2 (oor o.title b.title) (oor o.description b.description)
    (oor o.enum b.enum) (oor o.cst b.cst) (oor o.sif b.sif)
    (oor o.sthen b.sthen) (oor o.selse b.selse) props2 items2 req2
termination_by (max (sizeOf b) (sizeOf o), 0)
decreasing_by
  all_goals simp_wf
  · apply Prod.Lex.left
    have h1 : sizeOf b.propsD < sizeOf b := sizeOf_propsD_lt b
    have h2 : sizeOf o.propsD < sizeOf o := sizeOf_propsD_lt o
    omega
  · apply Prod.Lex.left
    have h1 : sizeOf bi < sizeOf b := sizeOf_lt_of_items hbi
    have h2 : sizeOf oi < sizeOf o := sizeOf_lt_of_items hoi
    omega
  · apply Prod.Lex.left
    have h1 : sizeOf bi < sizeOf b := sizeOf_lt_of_items hbi
    omega
  · apply Prod.Lex.left
    have h1 : sizeOf oi < sizeOf o := sizeOf_lt_of_items hoi
    omega

/-- The properties-union loop of mergeSchemas (conditional.ts lines 89-96):
iterate the key union; keys present on both sides merge recursively, keys on
one side are taken unchanged.  (The both-absent arm is unreachable when the
key list is the union of the two key sets.) -/
def mergeProps : List String → List (String × SchemaField) → List (String × SchemaField) →
    List (String × SchemaField)
  | [], _, _ => []
  | k :: rest, bp, op =>
    (match hb : alookup bp k, ho : alookup op k with
     | some bc, some oc => [(k, mergeSchemas bc oc)]
     | some bc, none => [(k, bc)]
     | none, some oc => [(k, oc)]
     | none, none => []) ++ mergeProps rest bp op
termination_by ks bp op => (max (sizeOf bp) (sizeOf op), ks.length + 1)
decreasing_by
  all_goals simp_wf
  · apply Prod.Lex.left
    have h1 := alookup_sizeOf hb
    have h2 := alookup_sizeOf ho
    omega
  · apply Prod.Lex.right
    omega

end

/-! Accessor computation lemmas. -/

@[simp] theorem SchemaField.type_mk (t ti d e c i th el p it r) :
    (SchemaField.mk t ti d e c i th el p it r).type = t := rfl

@[simp] theorem SchemaField.title_mk (t ti d e c i th el p it r) :
    (SchemaField.mk t ti d e c i th el p it r).title = ti := rfl

@[simp] theorem SchemaField.description_mk (t ti d e c i th el p it r) :
    (SchemaField.mk t ti d e c i th el p it r).description = d := rfl

@[simp] theorem SchemaField.enum_mk (t ti d e c i th el p it r) :
    (SchemaField.mk t ti d e c i th el p it r).enum = e := rfl

@[simp] theorem SchemaField.cst_mk (t ti d e c i th el p it r) :
    (SchemaField.mk t ti d e c i th el p it r).cst = c := rfl

@[simp] theorem SchemaField.sif_mk (t ti d e c i th el p it r) :
    (SchemaField.mk t ti d e c i th el p it r).sif = i := rfl

@[simp] theorem SchemaField.sthen_mk (t ti d e c i th el p it r) :
    (SchemaField.mk t ti d e c i th el p it r).sthen = th := rfl

@[simp] theorem SchemaField.selse_mk (t ti d e c i th el p it r) :
    (SchemaField.mk t ti d e c i th el p it r).selse = el := rfl

@[simp] theorem SchemaField.properties_mk (t ti d e c i th el p it r) :
    (SchemaField.mk t ti d e c i th el p it r).properties = p := rfl

@[simp] theorem SchemaField.items_mk (t ti d e c i th el p it r) :
    (SchemaField.mk t ti d e c i th el p it r).items = it := rfl

@[simp] theorem SchemaField.required_mk (t ti d e c i th el p it r) :
    (SchemaField.mk t ti d e c i th el p it r).required = r := rfl

@[simp] theorem setProps_type (s p) : (setProps s p).type = s.type := by
  cases s; rfl

@[simp] theorem setProps_items (s p) : (setProps s p).items = s.items := by
  cases s; rfl

@[simp] theorem setProps_properties (s p) : (setProps s p).properties = p := by
  cases s; rfl

@[simp] theorem setProps_required (s p) : (setProps s p).required = s.required := by
  cases s; rfl

@[simp] theorem setProps_title (s p) : (setProps s p).title = s.title := by
  cases s; rfl

@[simp] theorem setProps_description (s p) : (setProps s p).description = s.description := by
  cases s; rfl

@[simp] theorem setProps_sif (s p) : (setProps s p).sif = s.sif := by
  cases s; rfl

@[simp] theorem setProps_sthen (s p) : (setProps s p).sthen = s.sthen := by
  cases s; rfl

@[simp] theorem setProps_selse (s p) : (setProps s p).selse = s.selse := by
  cases s; rfl

@[simp] theorem setItems_type (s i) : (setItems s i).type = s.type := by
  cases s; rfl

@[simp] theorem setItems_items (s i) : (setItems s i).items = i := by
  cases s; rfl

@[simp] theorem setItems_properties (s i) : (setItems s i).properties = s.properties := by
  cases s; rfl

/-! Depth of a schema tree: the visiting recursion of the resolver only ever
descends into properties children, items, and the merged-in then/else
payloads, so those are what depth counts. -/

mutual

def depth : SchemaField → Nat
  | .mk _ _ _ _ _ _ th el props it _ =>
    1 + max (max (depthO th) (depthO el)) (max (depthP (props.getD [])) (depthO it))
termination_by s => sizeOf s
decreasing_by
  all_goals simp_wf
  all_goals first
    | omega
    | exact Nat.lt_of_le_of_lt (sizeOf_getD_list _) (by omega)

def depthO : Option SchemaField → Nat
  | none => 0
  | some s => depth s
termination_by o => sizeOf o

def depthP : List (String × SchemaField) → Nat
  | [] => 0
  | (_, c) :: rest => max (depth c) (depthP rest)
termination_by l => sizeOf l

end

@[simp] theorem depthO_none : depthO none = 0 := by simp [depthO]

@[simp] theorem depthO_some (s : SchemaField) : depthO (some s) = depth s := by
  simp [depthO]

@[simp] theorem depthP_nil : depthP [] = 0 := by simp [depthP]

@[simp] theorem depthP_cons (k : String) (c : SchemaField) (rest) :
    depthP ((k, c) :: rest) = max (depth c) (depthP rest) := by
  simp [depthP]

theorem depth_eq (s : SchemaField) :
    depth s = 1 + max (max (depthO s.sthen) (depthO s.selse))
      (max (depthP s.propsD) (depthO s.items)) := by
  cases s
  simp [depth, SchemaField.propsD]

theorem depthP_propsD_lt (s : SchemaField) : depthP s.propsD < depth s := by
  rw [depth_eq s]
  omega

theorem depthO_items_lt (s : SchemaField) : depthO s.items < depth s := by
  rw [depth_eq s]
  omega

theorem depthO_sthen_lt (s : SchemaField) : depthO s.sthen < depth s := by
  rw [depth_eq s]
  omega

theorem depthO_selse_lt (s : SchemaField) : depthO s.selse < depth s := by
  rw [depth_eq s]
  omega

theorem depthO_oor (x y : Option SchemaField) :
    depthO (oor x y) ≤ max (depthO x) (depthO y) := by
  cases x <;> simp [oor] <;> omega

theorem depthP_getD_oor (x y : Option (List (String × SchemaField))) :
    depthP ((oor x y).getD []) ≤ max (depthP (x.getD [])) (depthP (y.getD [])) := by
  cases x <;> simp [oor, Option.getD] <;> omega

theorem depthP_append (l1 l2 : List (String × SchemaField)) :
    depthP (l1 ++ l2) = max (depthP l1) (depthP l2) := by
  induction l1 with
  | nil => simp
  | cons hd tl ih =>
    obtain ⟨k, c⟩ := hd
    simp [ih]
    omega

theorem alookup_depthP {l : List (String × SchemaField)} {k : String} {c : SchemaField}
    (h : alookup l k = some c) : depth c ≤ depthP l := by
  induction l with
  | nil => simp [alookup] at h
  | cons hd tl ih =>
    obtain ⟨k2, v2⟩ := hd
    simp only [alookup] at h
    by_cases hk : k2 = k
    · simp [hk] at h
      subst h
      simp
    · simp [hk] at h
      have := ih h
      simp
      omega

/-! Field-level characterisation of `mergeSchemas`. -/

theorem merge_sthen (b o : SchemaField) :
    (mergeSchemas b o).sthen = oor o.sthen b.sthen := by
  rw [mergeSchemas.eq_def]
  simp

theorem merge_selse (b o : SchemaField) :
    (mergeSchemas b o).selse = oor o.selse b.selse := by
  rw [mergeSchemas.eq_def]
  simp

theorem merge_sif (b o : SchemaField) :
    (mergeSchemas b o).sif = oor o.sif b.sif := by
  rw [mergeSchemas.eq_def]
  simp

theorem merge_title (b o : SchemaField) :
    (mergeSchemas b o).title = oor o.title b.title := by
  rw [mergeSchemas.eq_def]
  simp

theorem merge_required (b o : SchemaField) :
    (mergeSchemas b o).required =
      if b.required.isSome || o.required.isSome then
        some (jsSetDedup (b.reqD ++ o.reqD))
      else oor o.required b.required := by
  rw [mergeSchemas.eq_def]
  simp

theorem merge_properties (b o : SchemaField) :
    (mergeSchemas b o).properties =
      if objClause b o then
        some (mergeProps (jsSetDedup (b.propsD.map Prod.fst ++ o.propsD.map Prod.fst))
          b.propsD o.propsD)
      else oor o.properties b.properties := by
  rw [mergeSchemas.eq_def]
  simp

theorem merge_type (b o : SchemaField) :
    (mergeSchemas b o).type =
      if arrClause b o then some SchemaType.arr
      else if objClause b o then some SchemaType.obj
      else oor o.type b.type := by
  rw [mergeSchemas.eq_def]
  simp

theorem merge_items_else {b o : SchemaField} (h : ¬ arrClause b o) :
    (mergeSchemas b o).items = oor o.items b.items := by
  rw [mergeSchemas.eq_def]
  simp [h]

theorem merge_items_bo {b o bi oi : SchemaField} (h : arrClause b o)
    (hb : b.items = some bi) (ho : o.items = some oi) :
    (mergeSchemas b o).items = some (mergeSchemas bi oi) := by
  rw [mergeSchemas.eq_def]
  simp [h]
  split <;> simp_all

theorem merge_items_b {b o bi : SchemaField} (h : arrClause b o)
    (hb : b.items = some bi) (ho : o.items = none) :
    (mergeSchemas b o).items = some (mergeSchemas bi bi) := by
  rw [mergeSchemas.eq_def]
  simp [h]
  split <;> simp_all

theorem merge_items_o {b o oi : SchemaField} (h : arrClause b o)
    (hb : b.items = none) (ho : o.items = some oi) :
    (mergeSchemas b o).items = some (mergeSchemas oi oi) := by
  rw [mergeSchemas.eq_def]
  simp [h]
  split <;> simp_all

/-! Merging never deepens a schema tree beyond its deeper operand; this is
what makes the resolver's visit recursion well-founded. -/

theorem merge_depth_all : ∀ n : Nat,
    (∀ b o, max (sizeOf b) (sizeOf o) ≤ n →
      depth (mergeSchemas b o) ≤ max (depth b) (depth o)) ∧
    (∀ ks bp op, max (sizeOf bp) (sizeOf op) ≤ n →
      depthP (mergeProps ks bp op) ≤ max (depthP bp) (depthP op)) := by
  intro n
  induction n using Nat.strong_induction_on with
  | _ n ih =>
    constructor
    · intro b o hn
      have hprops : depthP (mergeSchemas b o).propsD ≤
          max (depthP b.propsD) (depthP o.propsD) := by
        unfold SchemaField.propsD
        rw [merge_properties]
        by_cases hc : objClause b o
        · simp only [hc, if_true, if_pos, Option.getD_some]
          have hm : max (sizeOf b.propsD) (sizeOf o.propsD) < n := by
            have hb := sizeOf_propsD_lt b
            have ho := sizeOf_propsD_lt o
            omega
          exact (ih _ hm).2 _ b.propsD o.propsD le_rfl
        · simp only [hc, if_false, if_neg, not_false_iff]
          have := depthP_getD_oor o.properties b.properties
          unfold SchemaField.propsD at *
          omega
      have hitems : depthO (mergeSchemas b o).items ≤
          max (depthO b.items) (depthO o.items) := by
        by_cases hc : arrClause b o
        · rcases hbv : b.items with _ | bi <;> rcases hov : o.items with _ | oi
          · exfalso
            unfold arrClause at hc
            rcases hc with ⟨_, h2⟩
            simp [hbv, hov] at h2
          · rw [merge_items_o hc hbv hov]
            have hm : max (sizeOf oi) (sizeOf oi) < n := by
              have := sizeOf_lt_of_items hov
              omega
            have := (ih _ hm).1 oi oi le_rfl
            simp
            omega
          · rw [merge_items_b hc hbv hov]
            have hm : max (sizeOf bi) (sizeOf bi) < n := by
              have := sizeOf_lt_of_items hbv
              omega
            have := (ih _ hm).1 bi bi le_rfl
            simp
            omega
          · rw [merge_items_bo hc hbv hov]
            have hm : max (sizeOf bi) (sizeOf oi) < n := by
              have h1 := sizeOf_lt_of_items hbv
              have h2 := sizeOf_lt_of_items hov
              omega
            have := (ih _ hm).1 bi oi le_rfl
            simp
            omega
        · rw [merge_items_else hc]
          have := depthO_oor o.items b.items
          omega
      have h1 := depthO_oor o.sthen b.sthen
      have h2 := depthO_oor o.selse b.selse
      rw [depth_eq (mergeSchemas b o), merge_sthen, merge_selse]
      rw [depth_eq b, depth_eq o] at *
      omega
    · intro ks bp op hn
      induction ks with
      | nil =>
        simp [mergeProps]
      | cons k rest ihks =>
        simp only [mergeProps]
        rw [depthP_append]
        apply max_le
        · split
          · rename_i bc oc hb2 ho2
            have hm : max (sizeOf bc) (sizeOf oc) < n := by
              have h1 := alookup_sizeOf hb2
              have h2 := alookup_sizeOf ho2
              omega
            have hmm := (ih _ hm).1 bc oc le_rfl
            have hd1 := alookup_depthP hb2
            have hd2 := alookup_depthP ho2
            simp
            omega
          · rename_i bc hb2 ho2
            have := alookup_depthP hb2
            simp
            omega
          · rename_i oc hb2 ho2
            have := alookup_depthP ho2
            simp
            omega
          · simp
        · exact ihks

theorem mergeSchemas_depth (b o : SchemaField) :
    depth (mergeSchemas b o) ≤ max (depth b) (depth o) :=
  (merge_depth_all (max (sizeOf b) (sizeOf o))).1 b o le_rfl

/-- The conditional step at one node of the resolver (conditional.ts lines
122-128): when `if` and at least one of `then`/`else` are present, evaluate
the matcher on this node's value, pick the winning branch, and merge it onto
the node; otherwise leave the node alone. -/
def applyCond (f : SchemaField) (v : JsonValue) : SchemaField :=
  match f.sif with
  | some cond =>
    if f.sthen.isSome || f.selse.isSome then
      match (if isValidAgainst cond v then f.sthen else f.selse) with
      | some branch => mergeSchemas f branch
      | none => f
    else f
  | none => f

theorem applyCond_depth (f : SchemaField) (v : JsonValue) :
    depth (applyCond f v) ≤ depth f := by
  unfold applyCond
  rcases f.sif with _ | cond
  · simp
  · simp only
    by_cases hte : f.sthen.isSome || f.selse.isSome
    · simp only [hte, if_true]
      rcases hbr : (if isValidAgainst cond v then f.sthen else f.selse) with _ | branch
      · simp
      · simp only
        have hb : depth branch ≤ max (depthO f.sthen) (depthO f.selse) := by
          by_cases hm : isValidAgainst cond v
          · simp [hm] at hbr
            rw [← depthO_some branch, ← hbr]
            omega
          · simp [hm] at hbr
            rw [← depthO_some branch, ← hbr]
            omega
        have h1 := mergeSchemas_depth f branch
        have h2 := depthO_sthen_lt f
        have h3 := depthO_selse_lt f
        omega
    · simp [hte]

theorem applyCond_depthP_propsD_lt (f : SchemaField) (v : JsonValue) :
    depthP (applyCond f v).propsD < depth f :=
  Nat.lt_of_lt_of_le (depthP_propsD_lt (applyCond f v)) (applyCond_depth f v)

theorem applyCond_depthO_items_lt (f : SchemaField) (v : JsonValue) :
    depthO (applyCond f v).items < depth f :=
  Nat.lt_of_lt_of_le (depthO_items_lt (applyCond f v)) (applyCond_depth f v)

theorem lex_helper {a b n m : Nat} (h : a ≤ b) (h2 : n < m) :
    Prod.Lex (· < ·) (· < ·) (a, n) (b, m) := by
  rcases Nat.lt_or_ge a b with h3 | h3
  · exact Prod.Lex.left _ _ h3
  · have hab : a = b := Nat.le_antisymm h h3
    subst hab
    exact Prod.Lex.right _ h2

mutual

/-- The inner `visit` of resolveEffectiveSchema (conditional.ts lines
119-147): apply the conditional step, then — the two branches being mutually
exclusive on the working node's `type` — either rebuild every property
against the matching data member, or resolve `items` once against the
array's first element. -/
def visit (f : SchemaField) (v : JsonValue) : SchemaField :=
  match hwt : (applyCond f v).type, hwp : (applyCond f v).properties,
      hwi : (applyCond f v).items with
  | some SchemaType.obj, some props, _ =>
    setProps (applyCond f v) (some (visitProps props (recFields v)))
  | some SchemaType.arr, _, some it2 =>
    setItems (applyCond f v) (some (visit it2 (jsFirst v)))
  | _, _, _ => applyCond f v
termination_by (depth f, 0)
decreasing_by
  all_goals simp_wf
  · apply Prod.Lex.left
    have h1 : depthP props = depthP (applyCond f v).propsD := by
      simp [SchemaField.propsD, hwp]
    have h2 := applyCond_depthP_propsD_lt f v
    omega
  · apply Prod.Lex.left
    have h1 : depth it2 = depthO (applyCond f v).items := by
      simp [hwi]
    have h2 := applyCond_depthO_items_lt f v
    omega

/-- The property loop of visit (conditional.ts lines 131-138): rebuild each
property by visiting it against the same-named member of the (record-coerced)
value. -/
def visitProps : List (String × SchemaField) → List (String × JsonValue) →
    List (String × SchemaField)
  | [], _ => []
  | (k, c) :: rest, kvs => (k, visit c (jget kvs k)) :: visitProps rest kvs
termination_by props _ => (depthP props, props.length + 1)
decreasing_by
  all_goals simp_wf
  all_goals apply lex_helper
  all_goals first | omega | (simp; omega)

end

/-- The root viewed as a SchemaField (conditional.ts lines 156-165): the
working copy of the root carries title/description/properties/required and
the root-level conditionals. -/
def rootToField (r : JsonSchema) : SchemaField :=
  .mk (some SchemaType.obj) r.title r.description none none r.sif r.sthen r.selse
    (some r.properties) none r.required

/-- `resolveEffectiveSchema` (conditional.ts lines 115-194).  A JsonSchema
always has `type: "object"` and a `properties` object, so the root guard of
line 149 always passes.  The root-level conditional step (lines 167-175) is
the same computation as `applyCond` on the root-as-field; the result object
(lines 183-189) is rebuilt without any `if`/`then`/`else` fields. -/
def resolveEffectiveSchema (root : JsonSchema) (d : JsonValue) : JsonSchema :=
  let wr2 := applyCond (rootToField root) d
  let wr3 := setProps wr2 (some (visitProps wr2.propsD (recFields d)))
  { title := oor wr3.title root.title
    description := oor wr3.description root.description
    properties := wr3.propsD
    required := wr3.required
    sif := none
    sthen := none
    selse := none }

/-! `pruneDataAgainstSchema` — conditional.ts lines 201-220. -/

mutual

/-- Rebuild the data keeping only what the (effective) schema declares:
object nodes are rebuilt with exactly the declared property keys, array
nodes map pruning over their elements, anything else passes through. -/
def pruneDataAgainstSchema (s : SchemaField) (d : JsonValue) : JsonValue :=
  match ht : s.type, hp : s.properties, hi : s.items with
  | some SchemaType.obj, some ps, _ => .obj (pruneProps ps (recFields d))
  | some SchemaType.arr, _, some it =>
    .arr ((elemsOf d).map (fun x => pruneDataAgainstSchema it x))
  | _, _, _ => d
termination_by sizeOf s
decreasing_by
  all_goals simp_wf
  · exact sizeOf_lt_of_properties hp
  · exact sizeOf_lt_of_items hi

/-- The key loop of the pruner: one output entry per declared property,
recursively pruned against the same-named source value. -/
def pruneProps : List (String × SchemaField) → List (String × JsonValue) →
    List (String × JsonValue)
  | [], _ => []
  | (k, c) :: rest, src =>
    (k, pruneDataAgainstSchema c (jget src k)) :: pruneProps rest src
termination_by ps _ => sizeOf ps
decreasing_by
  all_goals simp_wf
  all_goals first | omega | (simp; omega)

end

/-! `validate` — src/src/schema/DynamicForm.tsx lines 275-319, together with
its helpers `joinPath` (line 131) and `isRecord` (line 134).  The error
accumulator is a JS object written by key assignment: an existing key keeps
its position and is overwritten, a new key is appended (last write wins). -/

/-- `acc[p] = m` on the path-keyed error object. -/
def setKey : List (String × String) → String → String → List (String × String)
  | [], p, m => [(p, m)]
  | (k, v) :: rest, p, m =>
    if k = p then (p, m) :: rest else (k, v) :: setKey rest p m

/-- `path.map(String).join(".")`. -/
def joinPath : List String → String
  | [] => ""
  | [x] => x
  | x :: rest => x ++ "." ++ joinPath rest

/-- `props?.[k]?.type` — the child schema type consulted by the
required-empty-array check (DynamicForm line 290-293), with `props` the
(optional) properties map of the node being validated. -/
def childTypeOf (p : Option (List (String × SchemaField))) (k : String) :
    Option SchemaType :=
  match p with
  | some ps =>
    match alookup ps k with
    | some c => c.type
    | none => none
  | none => none

/-- `Array.isArray(v) && childSchema?.type === "array" && v.length === 0`. -/
def isEmptyReqArray (v : JsonValue) (ct : Option SchemaType) : Bool :=
  match v with
  | .arr xs => decide (ct = some SchemaType.arr) && xs.isEmpty
  | _ => false

/-- One pass of the `required.forEach` body (DynamicForm lines 288-297). -/
def reqStep (p : Option (List (String × SchemaField))) (kvs : List (String × JsonValue))
    (bp : List String) (a : List (String × String)) (k : String) :
    List (String × String) :=
  let v := jget kvs k
  if isEmptyish v || isEmptyReqArray v (childTypeOf p k) then
    setKey a (joinPath (bp ++ [k])) "This field is required"
  else a

/-- `dataNode !== undefined && dataNode !== ""` — the guard of the enum
membership check (DynamicForm line 313). -/
def isEnumCheckable : JsonValue → Bool
  | .undefined => false
  | .str s => s != ""
  | _ => true

/-- The primitive branch of validate (DynamicForm lines 310-317), with `e`
the node's (optional) enum list. -/
def enumCheck (e : Option (List JsonValue)) (d : JsonValue) (bp : List String)
    (acc : List (String × String)) : List (String × String) :=
  match e with
  | some es =>
    if isEnumCheckable d then
      if es.any (fun x => jsStrictEq x d) then acc
      else setKey acc (joinPath bp) "Invalid value"
    else acc
  | none => acc

mutual

/-- `validate(schemaNode, dataNode, basePath, acc)` of DynamicForm:
object nodes check required keys then recurse into every declared property
(both only when the data is a record); array nodes with items recurse into
every element with its index appended; anything else runs the enum check. -/
def validate : SchemaField → JsonValue → List String → List (String × String) →
    List (String × String)
  | .mk t _ _ e _ _ _ _ p it r, d, bp, acc =>
    if t.getD SchemaType.obj = SchemaType.obj then
      match p, d with
      | some ps, .obj kvs =>
        vProps ps kvs bp
          (match r with
           | some req => req.foldl (reqStep (some ps) kvs bp) acc
           | none => acc)
      | _, _ =>
        match r, d with
        | some req, .obj kvs => req.foldl (reqStep p kvs bp) acc
        | _, _ => acc
    else
      match it with
      | some itv =>
        if t.getD SchemaType.obj = SchemaType.arr then
          vItems itv (elemsOf d) 0 bp acc
        else enumCheck e d bp acc
      | none => enumCheck e d bp acc
termination_by s _ _ _ => (sizeOf s, 1)
decreasing_by
  all_goals simp_wf
  all_goals apply Prod.Lex.left
  all_goals first | omega | (simp; omega)

/-- The property recursion of validate (DynamicForm lines 299-303). -/
def vProps : List (String × SchemaField) → List (String × JsonValue) →
    List String → List (String × String) → List (String × String)
  | [], _, _, acc => acc
  | (k, c) :: rest, kvs, bp, acc =>
    vProps rest kvs bp (validate c (jget kvs k) (bp ++ [k]) acc)
termination_by ps _ _ _ => (sizeOf ps, 0)
decreasing_by
  all_goals simp_wf
  all_goals apply Prod.Lex.left
  all_goals first | omega | (simp; omega)

/-- The element recursion of validate (DynamicForm lines 304-309):
`arr.forEach((item, idx) => validate(items, item, [...basePath, idx], acc))`. -/
def vItems (it : SchemaField) : List JsonValue → Nat → List String →
    List (String × String) → List (String × String)
  | [], _, _, acc => acc
  | x :: rest, idx, bp, acc =>
    vItems it rest (idx + 1) bp (validate it x (bp ++ [toString idx]) acc)
termination_by elems _ _ _ => (sizeOf it, elems.length + 2)
decreasing_by
  all_goals simp_wf
  all_goals apply lex_helper
  all_goals first | omega | (simp; omega)

end

/-! Generic lemmas about the JS-collection helpers. -/

theorem mem_dedupGo (l : List String) : ∀ (seen : List String) (x : String),
    x ∈ dedupGo l seen ↔ (x ∈ l ∧ x ∉ seen) := by
  induction l with
  | nil => intro seen x; simp [dedupGo]
  | cons y ys ih =>
    intro seen x
    by_cases hy : y ∈ seen
    · rw [dedupGo, if_pos hy, ih]
      constructor
      · rintro ⟨h1, h2⟩
        exact ⟨List.mem_cons_of_mem _ h1, h2⟩
      · rintro ⟨h1, h2⟩
        rcases List.mem_cons.mp h1 with h3 | h3
        · subst h3
          exact absurd hy h2
        · exact ⟨h3, h2⟩
    · rw [dedupGo, if_neg hy]
      by_cases hxy : x = y
      · subst hxy
        simp [hy]
      · simp only [List.mem_cons, hxy, false_or]
        rw [ih]
        constructor
        · rintro ⟨h1, h2⟩
          simp only [List.mem_cons, hxy, false_or] at h2
          exact ⟨h1, h2⟩
        · rintro ⟨h1, h2⟩
          constructor
          · exact h1
          · simp [hxy, h2]

theorem nodup_dedupGo (l : List String) : ∀ (seen : List String),
    (dedupGo l seen).Nodup := by
  induction l with
  | nil => intro seen; simp [dedupGo]
  | cons y ys ih =>
    intro seen
    by_cases hy : y ∈ seen
    · rw [dedupGo, if_pos hy]
      exact ih seen
    · rw [dedupGo, if_neg hy]
      refine List.Nodup.cons ?_ (ih (y :: seen))
      intro hmem
      rw [mem_dedupGo] at hmem
      exact hmem.2 (List.mem_cons_self y seen)

theorem mem_jsSetDedup (l : List String) (x : String) :
    x ∈ jsSetDedup l ↔ x ∈ l := by
  unfold jsSetDedup
  rw [mem_dedupGo]
  simp

theorem nodup_jsSetDedup (l : List String) : (jsSetDedup l).Nodup :=
  nodup_dedupGo l []

theorem alookup_append {α : Type} (l1 l2 : List (String × α)) (k : String) :
    alookup (l1 ++ l2) k = oor (alookup l1 k) (alookup l2 k) := by
  induction l1 with
  | nil => simp [alookup, oor]
  | cons hd tl ih =>
    obtain ⟨k2, v⟩ := hd
    by_cases hk : k2 = k
    · simp [alookup, hk, oor]
    · simp [alookup, hk, ih]

theorem alookup_isSome_iff_mem_keys {α : Type} (l : List (String × α)) (k : String) :
    (alookup l k).isSome ↔ k ∈ l.map Prod.fst := by
  induction l with
  | nil => simp [alookup]
  | cons hd tl ih =>
    obtain ⟨k2, v⟩ := hd
    by_cases hk : k2 = k
    · simp [alookup, hk]
    · simp [alookup, hk, ih, Ne.symm hk]

theorem alookup_mergeProps (ks : List String) (bp op : List (String × SchemaField))
    (k : String) (hnd : ks.Nodup) :
    alookup (mergeProps ks bp op) k =
      if k ∈ ks then
        match alookup bp k, alookup op k with
        | some bc, some oc => some (mergeSchemas bc oc)
        | some bc, none => some bc
        | none, some oc => some oc
        | none, none => none
      else none := by
  induction ks with
  | nil => simp [mergeProps, alookup]
  | cons k2 rest ih =>
    have hnd2 : rest.Nodup := hnd.of_cons
    simp only [mergeProps]
    rw [alookup_append]
    by_cases hk : k = k2
    · subst hk
      have hknr : k ∉ rest := by
        intro hmem
        exact (List.nodup_cons.mp hnd).1 hmem
      rcases hb : alookup bp k with _ | bc <;> rcases ho : alookup op k with _ | oc <;>
        simp only [alookup, if_pos rfl, oor] <;>
        rw [ih hnd2] <;> simp [hknr]
    · rcases hb : alookup bp k2 with _ | bc <;> rcases ho : alookup op k2 with _ | oc <;>
        simp only [alookup, if_neg (Ne.symm hk), oor, List.nil_append] <;>
        rw [ih hnd2] <;> simp [hk]

/-! Concrete fixtures used by counterexamples and witnesses. -/

/-- Compact SchemaField builder (title/description omitted):
type, enum, const, if, then, else, properties, items, required. -/
def mkF (t : Option SchemaType) (e : Option (List JsonValue)) (c : Option JsonValue)
    (si st se : Option SchemaField) (p : Option (List (String × SchemaField)))
    (it : Option SchemaField) (r : Option (List String)) : SchemaField :=
  .mk t none none e c si st se p it r

/-- `{type:"string"}`. -/
def strF : SchemaField := mkF (some .str) none none none none none none none none

/-- `{type:"number"}`. -/
def numF : SchemaField := mkF (some .num) none none none none none none none none

/-- `{}` — a schema object with no fields at all. -/
def emptyF : SchemaField := mkF none none none none none none none none none

/-- `{type:"array", items:{type:"string"}}`. -/
def arrF : SchemaField := mkF (some .arr) none none none none none none (some strF) none

/-! Claim C7. -/

/-- Claim C7 (confirmed): for every base and overlay, the required list of
`mergeSchemas base overlay` is, as a set, the union of the two required
lists, with duplicates collapsed (the result list has no duplicates); in
particular base required `["a"]` and overlay required `["b"]` yield exactly
`["a", "b"]`. -/
theorem C7_merge_required_union : (∀ (b o : SchemaField),
      (∀ x, x ∈ (mergeSchemas b o).reqD ↔ x ∈ b.reqD ∨ x ∈ o.reqD)
      ∧ ((mergeSchemas b o).reqD).Nodup)
    ∧ (mergeSchemas
        (mkF (some .obj) none none none none none none none (some ["a"]))
        (mkF (some .obj) none none none none none none none (some ["b"]))).reqD
      = ["a", "b"] := by
  constructor
  · intro b o
    have hr := merge_required b o
    unfold SchemaField.reqD at *
    rw [hr]
    by_cases hc : b.required.isSome || o.required.isSome
    · rw [if_pos hc]
      constructor
      · intro x
        simp [mem_jsSetDedup, SchemaField.reqD]
      · simpa using nodup_jsSetDedup _
    · have hb : b.required = none := by
        cases hbv : b.required <;> simp [hbv] at hc ⊢
      have ho : o.required = none := by
        cases hov : o.required <;> simp [hov] at hc ⊢
      rw [if_neg hc]
      simp [hb, ho, oor]
  · simp [mergeSchemas.eq_def, mkF, SchemaField.reqD, jsSetDedup, dedupGo, oor,
      objClause, arrClause, mergeProps.eq_def, SchemaField.propsD, alookup]

/-! Claim C9. -/

/-- Claim C9 (confirmed): merging a schema with itself is identity-like —
the type is unchanged, the required list is unchanged as a set (and
deduplicated), the property key set is unchanged with every resulting child
equal to the original child or to that child's self-merge, and items is
unchanged or replaced by its self-merge. -/
theorem C9_merge_self_identity (s : SchemaField) :
    (mergeSchemas s s).type = s.type
    ∧ (∀ x, x ∈ (mergeSchemas s s).reqD ↔ x ∈ s.reqD)
    ∧ ((mergeSchemas s s).reqD).Nodup
    ∧ (∀ k, (alookup (mergeSchemas s s).propsD k).isSome ↔ (alookup s.propsD k).isSome)
    ∧ (∀ k c2, alookup (mergeSchemas s s).propsD k = some c2 →
        ∃ c, alookup s.propsD k = some c ∧ (c2 = mergeSchemas c c ∨ c2 = c))
    ∧ ((mergeSchemas s s).items = s.items
        ∨ ∃ it, s.items = some it ∧ (mergeSchemas s s).items = some (mergeSchemas it it)) := by
  have hty : (mergeSchemas s s).type = s.type := by
    rw [merge_type]
    by_cases ha : arrClause s s
    · rw [if_pos ha]
      unfold arrClause at ha
      rcases ha with ⟨h1 | h1, _⟩ <;> exact h1.symm
    · rw [if_neg ha]
      by_cases hob : objClause s s
      · rw [if_pos hob]
        unfold objClause at hob
        rcases hob with h1 | h1 <;> exact h1.symm
      · rw [if_neg hob]
        cases s.type <;> simp [oor]
  have hreq : (∀ x, x ∈ (mergeSchemas s s).reqD ↔ x ∈ s.reqD)
      ∧ ((mergeSchemas s s).reqD).Nodup := by
    unfold SchemaField.reqD
    rw [merge_required]
    by_cases hc : s.required.isSome || s.required.isSome
    · rw [if_pos hc]
      constructor
      · intro x
        simp [mem_jsSetDedup, SchemaField.reqD]
      · simpa using nodup_jsSetDedup _
    · have hb : s.required = none := by
        cases hbv : s.required <;> simp [hbv] at hc ⊢
      rw [if_neg hc]
      simp [hb, oor]
  have hpropsD : (mergeSchemas s s).propsD =
      if objClause s s then
        mergeProps (jsSetDedup (s.propsD.map Prod.fst ++ s.propsD.map Prod.fst))
          s.propsD s.propsD
      else s.propsD := by
    unfold SchemaField.propsD
    rw [merge_properties]
    by_cases hob : objClause s s
    · simp [hob, SchemaField.propsD]
    · rw [if_neg hob, if_neg hob]
      cases s.properties <;> simp [oor]
  have hlook : ∀ k, alookup (mergeSchemas s s).propsD k =
      (match alookup s.propsD k with
       | some c => some (mergeSchemas c c)
       | none => none)
      ∨ alookup (mergeSchemas s s).propsD k = alookup s.propsD k := by
    intro k
    rw [hpropsD]
    by_cases hob : objClause s s
    · left
      rw [if_pos hob]
      rw [alookup_mergeProps _ _ _ _ (nodup_jsSetDedup _)]
      by_cases hk : k ∈ jsSetDedup (s.propsD.map Prod.fst ++ s.propsD.map Prod.fst)
      · rw [if_pos hk]
        cases alookup s.propsD k <;> simp
      · rw [if_neg hk]
        rw [mem_jsSetDedup] at hk
        simp only [List.mem_append, or_self] at hk
        cases hl : alookup s.propsD k
        · simp
        · exfalso
          apply hk
          have hsome : (alookup s.propsD k).isSome := by simp [hl]
          exact (alookup_isSome_iff_mem_keys s.propsD k).mp hsome
    · right
      rw [if_neg hob]
  refine ⟨hty, hreq.1, hreq.2, ?_, ?_, ?_⟩
  · intro k
    rcases hlook k with h | h
    · rw [h]
      cases alookup s.propsD k <;> simp
    · rw [h]
  · intro k c2 h2
    rcases hlook k with h | h <;> rw [h] at h2
    · cases hl : alookup s.propsD k <;> rw [hl] at h2
      · simp at h2
      · simp at h2
        exact ⟨_, rfl, Or.inl h2.symm⟩
    · exact ⟨c2, h2, Or.inr rfl⟩
  · by_cases ha : arrClause s s
    · have hit : s.items.isSome := by
        unfold arrClause at ha
        rcases ha with ⟨_, h | h⟩ <;> exact h
      rcases hiv : s.items with _ | it
      · rw [hiv] at hit
        simp at hit
      · right
        exact ⟨it, rfl, merge_items_bo ha hiv hiv⟩
    · left
      rw [merge_items_else ha]
      cases s.items <;> simp [oor]

/-! Claim C4. -/

/-- Claim C4 counterexample: `base = {properties:{a:{type:"string"}}}` (no
`type`) and `overlay = {}` — either operand declares properties, yet the
merge result's type is not `"object"`: the code's object clause fires only
on `type === "object"`, never on a bare `properties` declaration. -/
theorem C4_counterexample :
    (mkF none none none none none none (some [("a", strF)]) none none).properties.isSome
      = true
    ∧ (mergeSchemas (mkF none none none none none none (some [("a", strF)]) none none)
        emptyF).type ≠ some SchemaType.obj := by
  constructor
  · simp [mkF]
  · rw [merge_type]
    simp [mkF, emptyF, objClause, arrClause, oor]

/-- Claim C4 as amended (proved): if either operand's `type` is `object`
(a bare `properties` declaration does not trigger the clause), the result's
properties map is the key union of both operands' properties — keys present
in both map to the recursive merge of the two children, keys present on one
side are taken unchanged from that side — and the result's type is `object`
unless the array clause (either type `array` and either side with `items`)
overrides it to `array`. -/
theorem C4_merge_object_clause (b o : SchemaField) (h : objClause b o) :
    (∀ k, (alookup (mergeSchemas b o).propsD k).isSome ↔
      (alookup b.propsD k).isSome ∨ (alookup o.propsD k).isSome)
    ∧ (∀ k bc oc, alookup b.propsD k = some bc → alookup o.propsD k = some oc →
        alookup (mergeSchemas b o).propsD k = some (mergeSchemas bc oc))
    ∧ (∀ k bc, alookup b.propsD k = some bc → alookup o.propsD k = none →
        alookup (mergeSchemas b o).propsD k = some bc)
    ∧ (∀ k oc, alookup b.propsD k = none → alookup o.propsD k = some oc →
        alookup (mergeSchemas b o).propsD k = some oc)
    ∧ (¬ arrClause b o → (mergeSchemas b o).type = some SchemaType.obj)
    ∧ (arrClause b o → (mergeSchemas b o).type = some SchemaType.arr) := by
  have hpd : (mergeSchemas b o).propsD =
      mergeProps (jsSetDedup (b.propsD.map Prod.fst ++ o.propsD.map Prod.fst))
        b.propsD o.propsD := by
    unfold SchemaField.propsD
    rw [merge_properties, if_pos h]
    simp [SchemaField.propsD]
  have hkey : ∀ k, k ∈ jsSetDedup (b.propsD.map Prod.fst ++ o.propsD.map Prod.fst) ↔
      ((alookup b.propsD k).isSome ∨ (alookup o.propsD k).isSome) := by
    intro k
    rw [mem_jsSetDedup]
    simp [List.mem_append, alookup_isSome_iff_mem_keys]
  have hlook : ∀ k, alookup (mergeSchemas b o).propsD k =
      if (alookup b.propsD k).isSome ∨ (alookup o.propsD k).isSome then
        match alookup b.propsD k, alookup o.propsD k with
        | some bc, some oc => some (mergeSchemas bc oc)
        | some bc, none => some bc
        | none, some oc => some oc
        | none, none => none
      else none := by
    intro k
    rw [hpd, alookup_mergeProps _ _ _ _ (nodup_jsSetDedup _)]
    by_cases hm : (alookup b.propsD k).isSome ∨ (alookup o.propsD k).isSome
    · rw [if_pos ((hkey k).mpr hm), if_pos hm]
    · rw [if_neg (fun hx => hm ((hkey k).mp hx)), if_neg hm]
  refine ⟨?_, ?_, ?_, ?_, ?_, ?_⟩
  · intro k
    rw [hlook k]
    rcases hb : alookup b.propsD k with _ | bc <;>
      rcases ho : alookup o.propsD k with _ | oc <;> simp
  · intro k bc oc hb ho
    rw [hlook k, hb, ho]
    simp
  · intro k bc hb ho
    rw [hlook k, hb, ho]
    simp
  · intro k oc hb ho
    rw [hlook k, hb, ho]
    simp
  · intro ha
    rw [merge_type, if_neg ha, if_pos h]
  · intro ha
    rw [merge_type, if_pos ha]

/-- Witness for the amended C4 at concrete operands: base has properties
`{a, c}` and type object, overlay has properties `{c}` (child `numF`); the
shared key `c` maps to the merge of the two children and the result type is
object. -/
theorem C4_witness :
    alookup (mergeSchemas
        (mkF (some .obj) none none none none none (some [("a", strF), ("c", strF)]) none none)
        (mkF none none none none none none (some [("c", numF)]) none none)).propsD "c"
      = some (mergeSchemas strF numF)
    ∧ (mergeSchemas
        (mkF (some .obj) none none none none none (some [("a", strF), ("c", strF)]) none none)
        (mkF none none none none none none (some [("c", numF)]) none none)).type
      = some SchemaType.obj := by
  have h := C4_merge_object_clause
    (mkF (some .obj) none none none none none (some [("a", strF), ("c", strF)]) none none)
    (mkF none none none none none none (some [("c", numF)]) none none)
    (Or.inl (by simp [mkF]))
  constructor
  · exact h.2.1 "c" strF numF (by simp [mkF, SchemaField.propsD, alookup])
      (by simp [mkF, SchemaField.propsD, alookup])
  · exact h.2.2.2.2.1 (by
      unfold arrClause
      simp [mkF])

/-! Claim C5. -/

/-- Claim C5 (confirmed): for an object-typed schema with a required list,
isValidAgainst fails as soon as some listed key reads as `undefined` (absent
key included), `null`, or `""`; the emptiness test `isEmptyish` is exactly
`undefined`/`null`/`""`, so keys bound to `0` or `false` count as present
(second conjunct: with no properties declared, a record whose required keys
are all present and non-emptyish passes); in particular
`isValidAgainst {type:"object", required:["x"]} {x:""}` is false. -/
theorem C5_matcher_required_emptiness :
    (∀ (s : SchemaField) (kvs : List (String × JsonValue)) (req : List String) (k : String),
      s.type = some SchemaType.obj → s.required = some req → k ∈ req →
      isEmptyish (jget kvs k) = true → isValidAgainst s (.obj kvs) = false)
    ∧ (∀ (s : SchemaField) (kvs : List (String × JsonValue)) (req : List String),
      s.type = some SchemaType.obj → s.required = some req → s.properties = none →
      (∀ k ∈ req, hasKey kvs k = true ∧ isEmptyish (jget kvs k) = false) →
      isValidAgainst s (.obj kvs) = true)
    ∧ isEmptyish (JsonValue.num 0) = false
    ∧ isEmptyish (JsonValue.bool false) = false
    ∧ isValidAgainst (mkF (some .obj) none none none none none none none (some ["x"]))
        (.obj [("x", .str "")]) = false := by
  refine ⟨?_, ?_, rfl, rfl, ?_⟩
  · intro s kvs req k hty hreq hk hempty
    cases s with
    | mk t ti dd e c i th el p it r =>
      simp only [SchemaField.type_mk] at hty
      simp only [SchemaField.required_mk] at hreq
      subst hty
      subst hreq
      simp only [isValidAgainst]
      have hall : req.all (fun k => hasKey kvs k && !(isEmptyish (jget kvs k))) = false := by
        rw [List.all_eq_false]
        exact ⟨k, hk, by simp [hempty]⟩
      rw [hall]
      simp
  · intro s kvs req hty hreq hp hall
    cases s with
    | mk t ti dd e c i th el p it r =>
      simp only [SchemaField.type_mk] at hty
      simp only [SchemaField.required_mk] at hreq
      simp only [SchemaField.properties_mk] at hp
      subst hty
      subst hreq
      subst hp
      simp only [isValidAgainst]
      have : req.all (fun k => hasKey kvs k && !(isEmptyish (jget kvs k))) = true := by
        rw [List.all_eq_true]
        intro k hk
        rcases hall k hk with ⟨h1, h2⟩
        simp [h1, h2]
      rw [this]
      simp [Option.getD, ivaProps]
  · simp [isValidAgainst, ivaProps, mkF, jget, hasKey, isEmptyish]

/-- Witness for C5: required key bound to `0` and to `false` passes the
matcher; required key bound to `""` fails. -/
theorem C5_witness :
    isValidAgainst (mkF (some .obj) none none none none none none none (some ["x"]))
        (.obj [("x", .num 0)]) = true
    ∧ isValidAgainst (mkF (some .obj) none none none none none none none (some ["x"]))
        (.obj [("x", .bool false)]) = true
    ∧ isValidAgainst (mkF (some .obj) none none none none none none none (some ["x"]))
        (.obj [("x", .str "")]) = false := by
  refine ⟨?_, ?_, C5_matcher_required_emptiness.2.2.2.2⟩
  · exact C5_matcher_required_emptiness.2.1 _ _ ["x"] (by simp [mkF]) (by simp [mkF])
      (by simp [mkF])
      (by
        intro k hk
        simp at hk
        subst hk
        constructor
        · simp [hasKey]
        · simp [jget, isEmptyish])
  · exact C5_matcher_required_emptiness.2.1 _ _ ["x"] (by simp [mkF]) (by simp [mkF])
      (by simp [mkF])
      (by
        intro k hk
        simp at hk
        subst hk
        constructor
        · simp [hasKey]
        · simp [jget, isEmptyish])

/-! Claim C10. -/

/-- Claim C10 (confirmed): when validate reaches an object-typed node
(explicit `type:"object"` or absent type, which defaults to object) whose
data value is not a plain record — undefined, null, a primitive, or an
array — it returns the accumulator unchanged: neither the node's required
checks nor any descendant check runs. -/
theorem C10_validate_nonrecord (s : SchemaField) (d : JsonValue) (bp : List String)
    (acc : List (String × String))
    (hty : s.type = some SchemaType.obj ∨ s.type = none)
    (hd : isRecordB d = false) :
    validate s d bp acc = acc := by
  cases s with
  | mk t ti dd e c i th el p it r =>
    have ht : t.getD SchemaType.obj = SchemaType.obj := by
      rcases hty with h | h <;>
        simp only [SchemaField.type_mk] at h <;> simp [h, Option.getD]
    cases d <;> first
      | (rw [validate.eq_def]; simp [ht]; done)
      | simp [isRecordB] at hd

/-- Witness for C10: a schema with a required key and a nested required
subobject validates to no findings at all when the data is `null`. -/
theorem C10_witness :
    validate (mkF (some .obj) none none none none none
        (some [("inner", mkF (some .obj) none none none none none none none (some ["y"]))])
        none (some ["inner"]))
      JsonValue.null [] [] = [] := by
  exact C10_validate_nonrecord _ _ _ _ (Or.inl (by simp [mkF])) (by simp [isRecordB])

/-! Claims C1 and C2 — fixtures. -/

/-- `{const:"delivery"}` (no type). -/
def constD : SchemaField := mkF none none (some (.str "delivery")) none none none none none none

/-- The C1 `if` subschema with an explicit `type:"object"`. -/
def ifTyped : SchemaField :=
  mkF (some .obj) none none none none none (some [("method", constD)]) none none

/-- The C1 `if` subschema exactly as the claim writes it — no `type`. -/
def ifUntyped : SchemaField :=
  mkF none none none none none none (some [("method", constD)]) none none

/-- `then: {required:["address"], properties:{address:{type:"string"}}}`. -/
def thenC1 : SchemaField :=
  mkF none none none none none none (some [("address", strF)]) none (some ["address"])

/-- `else: {required:["pickupCode"]}`. -/
def elseC1 : SchemaField := mkF none none none none none none none none (some ["pickupCode"])

/-- The C1 root with the typed `if`. -/
def rootC1T : JsonSchema :=
  { title := none, description := none, properties := [("method", strF)],
    required := none, sif := some ifTyped, sthen := some thenC1, selse := some elseC1 }

/-- The C1 root with the claim's literal untyped `if`. -/
def rootC1U : JsonSchema :=
  { title := none, description := none, properties := [("method", strF)],
    required := none, sif := some ifUntyped, sthen := some thenC1, selse := some elseC1 }

/-- A `then` payload carrying only `required:["z"]`. -/
def thenZ : SchemaField := mkF none none none none none none none none (some ["z"])

/-- A string-typed property that keeps an unresolved-looking conditional:
`{type:"string", if:{type:"string"}, then:{required:["z"]}}`. -/
def condStr : SchemaField := mkF (some .str) none none (some strF) (some thenZ) none none none none

/-- Root whose single property carries the conditional above. -/
def rootC2 : JsonSchema :=
  { title := none, description := none, properties := [("a", condStr)],
    required := none, sif := none, sthen := none, selse := none }

/-! Claim C1. -/

/-- Claim C1 counterexample: with the scenario exactly as written — the `if`
subschema `{properties:{method:{const:"delivery"}}}` has no `type`, so the
matcher's final permissive arm returns true for any data — the `then`
branch is selected even for `data = {method:"pickup"}`: the resolved root
requires `"address"` and does not require `"pickupCode"`, contradicting the
claim's second half. -/
theorem C1_counterexample :
    "pickupCode" ∉ (resolveEffectiveSchema rootC1U
        (.obj [("method", .str "pickup")])).required.getD []
    ∧ "address" ∈ (resolveEffectiveSchema rootC1U
        (.obj [("method", .str "pickup")])).required.getD [] := by
  constructor <;>
    simp [resolveEffectiveSchema, applyCond, rootToField, rootC1U, ifUntyped, thenC1,
      elseC1, constD, strF, mkF, isValidAgainst, ivaProps, mergeSchemas.eq_def,
      mergeProps.eq_def, visit.eq_def, visitProps.eq_def, jget, hasKey, jsStrictEq,
      setProps, oor, recFields, isEmptyish, isObjLike, jsSetDedup, dedupGo, objClause,
      arrClause, SchemaField.propsD, SchemaField.reqD, alookup]

/-- Claim C1 as amended (proved): the same scenario with the `if` subschema
carrying `type:"object"` behaves as the claim describes — for
`data = {method:"delivery"}` the resolved root's required list contains
`"address"`; for `data = {method:"pickup"}` it contains `"pickupCode"` and
not `"address"`. -/
theorem C1_branch_selection :
    "address" ∈ (resolveEffectiveSchema rootC1T
        (.obj [("method", .str "delivery")])).required.getD []
    ∧ "pickupCode" ∈ (resolveEffectiveSchema rootC1T
        (.obj [("method", .str "pickup")])).required.getD []
    ∧ "address" ∉ (resolveEffectiveSchema rootC1T
        (.obj [("method", .str "pickup")])).required.getD [] := by
  refine ⟨?_, ?_, ?_⟩ <;>
    simp [resolveEffectiveSchema, applyCond, rootToField, rootC1T, ifTyped, thenC1,
      elseC1, constD, strF, mkF, isValidAgainst, ivaProps, mergeSchemas.eq_def,
      mergeProps.eq_def, visit.eq_def, visitProps.eq_def, jget, hasKey, jsStrictEq,
      setProps, oor, recFields, isEmptyish, isObjLike, jsSetDedup, dedupGo, objClause,
      arrClause, SchemaField.propsD, SchemaField.reqD, alookup]

/-! Claim C2. -/

/-- Claim C2 counterexample: the claim says the resolved tree has no
`if`/`then`/`else` at any visited node, but a visited property node keeps
its conditional fields — here the property `a` of the resolved root is
returned with its `if` and `then` intact (its `if` did not match and no
merge removed anything; a merged node would keep them too, since the JS
spread copies them). -/
theorem C2_counterexample :
    alookup (resolveEffectiveSchema rootC2 (.obj [])).properties "a" = some condStr
    ∧ condStr.sif = some strF ∧ condStr.sthen = some thenZ := by
  have hv : visit condStr JsonValue.undefined = condStr := by
    rw [visit.eq_def]
    simp [applyCond, condStr, thenZ, strF, mkF, isValidAgainst, ivaProps]
  refine ⟨?_, rfl, rfl⟩
  simp [resolveEffectiveSchema, rootC2, rootToField, applyCond, visitProps.eq_def,
    jget, recFields, setProps, oor, alookup, hv, SchemaField.propsD]

/-- Claim C2 as amended (proved): resolveEffectiveSchema strips the
conditional keys only at the root — the returned root object carries no
`if`/`then`/`else` for any input schema and data; property/items nodes may
retain theirs (see the counterexample). -/
theorem C2_root_conditionals_consumed (root : JsonSchema) (d : JsonValue) :
    (resolveEffectiveSchema root d).sif = none
    ∧ (resolveEffectiveSchema root d).sthen = none
    ∧ (resolveEffectiveSchema root d).selse = none := by
  refine ⟨?_, ?_, ?_⟩ <;> simp [resolveEffectiveSchema]

/-! Claim C8. -/

/-- Claim C8 (confirmed): at an array-typed node (after its own conditional
step) with an `items` schema, visit resolves `items` exactly once, against
`arr[0]` — the first element of the value when it is a non-empty array and
`undefined` otherwise — and installs that single resolved schema as the
node's `items`, leaving the rest of the node unchanged: one resolved items
schema governs every element. -/
theorem C8_items_first_element (f : SchemaField) (v : JsonValue) (it2 : SchemaField)
    (ht : (applyCond f v).type = some SchemaType.arr)
    (hi : (applyCond f v).items = some it2) :
    visit f v = setItems (applyCond f v) (some (visit it2 (jsFirst v)))
    ∧ jsFirst v = (match v with
      | JsonValue.arr (x :: _) => x
      | _ => JsonValue.undefined) := by
  constructor
  · rw [visit.eq_def]
    split
    · rename_i hwt hwp
      rw [ht] at hwt
      simp at hwt
    · rename_i hwt hwi
      rw [hi] at hwi
      simp at hwi
      rw [hwi]
    · rename_i hcatch
      exact absurd (hcatch it2 ht hi) (fun h => h)
  · cases v <;> simp [jsFirst]
    rename_i xs
    cases xs <;> simp [jsFirst]

/-- Witness for C8: an array schema with string items over data
`["a","b"]` — items resolved once, against the first element `"a"`. -/
theorem C8_witness :
    visit arrF (.arr [.str "a", .str "b"])
      = setItems (applyCond arrF (.arr [.str "a", .str "b"]))
          (some (visit strF (.str "a"))) := by
  have h := (C8_items_first_element arrF (.arr [.str "a", .str "b"]) strF
    (by simp [applyCond, arrF, mkF])
    (by simp [applyCond, arrF, mkF])).1
  simpa [jsFirst] using h

/-! Claim C6 — key-monotonicity of the error accumulator. -/

theorem mem_keys_setKey_self (l : List (String × String)) (q m : String) :
    q ∈ (setKey l q m).map Prod.fst := by
  induction l with
  | nil => simp [setKey]
  | cons hd tl ih =>
    obtain ⟨k, v⟩ := hd
    by_cases hk : k = q
    · simp [setKey, hk]
    · simp [setKey, hk, ih]

theorem mem_keys_setKey_mono {l : List (String × String)} {p : String} (q m : String)
    (h : p ∈ l.map Prod.fst) : p ∈ (setKey l q m).map Prod.fst := by
  induction l with
  | nil => simp at h
  | cons hd tl ih =>
    obtain ⟨k, v⟩ := hd
    rw [List.map_cons] at h
    rcases List.mem_cons.mp h with h1 | h1
    · by_cases hk : k = q
      · subst hk
        simp [setKey, h1]
      · simp only [setKey, if_neg hk, List.map_cons]
        exact List.mem_cons.mpr (Or.inl h1)
    · by_cases hk : k = q
      · subst hk
        simp only [setKey, if_pos rfl, List.map_cons]
        exact List.mem_cons.mpr (Or.inr h1)
      · simp only [setKey, if_neg hk, List.map_cons]
        exact List.mem_cons.mpr (Or.inr (ih h1))

theorem enumCheck_keys_mono (e : Option (List JsonValue)) (d : JsonValue)
    (bp : List String) (acc : List (String × String)) (p : String)
    (h : p ∈ acc.map Prod.fst) : p ∈ (enumCheck e d bp acc).map Prod.fst := by
  unfold enumCheck
  split
  · split
    · split
      · exact h
      · exact mem_keys_setKey_mono _ _ h
    · exact h
  · exact h

theorem reqStep_keys_mono (pr : Option (List (String × SchemaField)))
    (kvs : List (String × JsonValue)) (bp : List String)
    (a : List (String × String)) (k p : String)
    (h : p ∈ a.map Prod.fst) : p ∈ (reqStep pr kvs bp a k).map Prod.fst := by
  simp only [reqStep]
  split
  · exact mem_keys_setKey_mono _ _ h
  · exact h

theorem foldl_keys_mono {α : Type}
    (f : List (String × String) → α → List (String × String))
    (hf : ∀ a x p, p ∈ a.map Prod.fst → p ∈ (f a x).map Prod.fst)
    (l : List α) (a : List (String × String)) (p : String)
    (h : p ∈ a.map Prod.fst) : p ∈ (l.foldl f a).map Prod.fst := by
  induction l generalizing a with
  | nil => simpa using h
  | cons x xs ih => exact ih _ (hf a x p h)

theorem reqFold_mem (pr : Option (List (String × SchemaField)))
    (kvs : List (String × JsonValue)) (bp : List String) (k : String)
    (hviol : (isEmptyish (jget kvs k)
      || isEmptyReqArray (jget kvs k) (childTypeOf pr k)) = true) :
    ∀ (req : List String) (acc : List (String × String)), k ∈ req →
    joinPath (bp ++ [k]) ∈ (req.foldl (reqStep pr kvs bp) acc).map Prod.fst := by
  intro req
  induction req with
  | nil =>
    intro acc hk
    simp at hk
  | cons h0 tl ih =>
    intro acc hk
    rcases List.mem_cons.mp hk with he | he
    · subst he
      simp only [List.foldl_cons]
      apply foldl_keys_mono _ (fun a x p hp => reqStep_keys_mono pr kvs bp a x p hp)
      simp only [reqStep]
      rw [if_pos hviol]
      exact mem_keys_setKey_self _ _ _
    · simp only [List.foldl_cons]
      exact ih _ he

theorem validate_keys_mono_all : ∀ n : Nat,
    (∀ (s : SchemaField) (d : JsonValue) (bp : List String)
      (acc : List (String × String)) (p : String),
      sizeOf s ≤ n → p ∈ acc.map Prod.fst → p ∈ (validate s d bp acc).map Prod.fst)
    ∧ (∀ (ps : List (String × SchemaField)) (kvs : List (String × JsonValue))
      (bp : List String) (acc : List (String × String)) (p : String),
      sizeOf ps ≤ n → p ∈ acc.map Prod.fst → p ∈ (vProps ps kvs bp acc).map Prod.fst)
    ∧ (∀ (it : SchemaField) (elems : List JsonValue) (idx : Nat) (bp : List String)
      (acc : List (String × String)) (p : String),
      sizeOf it ≤ n → p ∈ acc.map Prod.fst → p ∈ (vItems it elems idx bp acc).map Prod.fst) := by
  intro n
  induction n using Nat.strong_induction_on with
  | _ n ih =>
    have hval : ∀ (s : SchemaField) (d : JsonValue) (bp : List String)
        (acc : List (String × String)) (p : String),
        sizeOf s ≤ n → p ∈ acc.map Prod.fst → p ∈ (validate s d bp acc).map Prod.fst := by
      intro s d bp acc p hsz hm
      cases s with
      | mk t ti dd e c i th el pp it r =>
        have hfold : ∀ (rr : Option (List String)) (kvs : List (String × JsonValue))
            (prp : Option (List (String × SchemaField))),
            p ∈ (match rr with
              | some req => req.foldl (reqStep prp kvs bp) acc
              | none => acc).map Prod.fst := by
          intro rr kvs prp
          cases rr
          · exact hm
          · exact foldl_keys_mono _
              (fun a x q hq => reqStep_keys_mono prp kvs bp a x q hq) _ _ _ hm
        simp only [validate.eq_def]
        split
        · split
          · rename_i ps kvs
            have hlt : sizeOf ps < n := by
              simp at hsz
              omega
            exact (ih _ hlt).2.1 ps kvs bp _ p le_rfl (hfold r kvs (some ps))
          · split
            · rename_i req kvs hx
              have := hfold (some req) kvs pp
              simpa using this
            · exact hm
        · split
          · split
            · rename_i hneg itv hpos
              have hlt : sizeOf itv < n := by
                simp at hsz
                omega
              exact (ih _ hlt).2.2 itv (elemsOf d) 0 bp acc p le_rfl hm
            · exact enumCheck_keys_mono _ _ _ _ _ hm
          · exact enumCheck_keys_mono _ _ _ _ _ hm
    refine ⟨hval, ?_, ?_⟩
    · intro ps
      induction ps with
      | nil =>
        intro kvs bp acc p hsz hm
        simpa [vProps] using hm
      | cons hd tlp ihp =>
        intro kvs bp acc p hsz hm
        obtain ⟨k, cs⟩ := hd
        have h1 : sizeOf cs ≤ n := by
          simp at hsz
          omega
        have h2 : sizeOf tlp ≤ n := by
          simp at hsz
          omega
        simp only [vProps]
        exact ihp kvs bp _ p h2 (hval cs (jget kvs k) (bp ++ [k]) acc p h1 hm)
    · intro it elems
      induction elems with
      | nil =>
        intro idx bp acc p hsz hm
        simpa [vItems] using hm
      | cons x xs ihe =>
        intro idx bp acc p hsz hm
        simp only [vItems]
        exact ihe (idx + 1) bp _ p hsz (hval it x (bp ++ [toString idx]) acc p hsz hm)

/-- `{type:"object", required:["k"], properties:{k:{type:"array",
items:{type:"string"}}}}` — the validator required-array fixture. -/
def reqArrS : SchemaField :=
  mkF (some .obj) none none none none none (some [("k", arrF)]) none (some ["k"])

/-- Claim C6 (confirmed): at an object-typed node with record data, every
required name whose value is undefined, the empty string, or null, or whose
child schema is array-typed while the value is an empty array, ends up as a
key of the error map (the required rule fires at path.name); concretely, the
required-array fixture flags `[]` with "This field is required" and does not
flag `["x"]`. -/
theorem C6_validator_required :
    (∀ (s : SchemaField) (kvs : List (String × JsonValue)) (req : List String)
      (k : String) (bp : List String) (acc : List (String × String)),
      s.type = some SchemaType.obj → s.required = some req → k ∈ req →
      (isEmptyish (jget kvs k) = true ∨
        (jget kvs k = JsonValue.arr [] ∧ childTypeOf s.properties k = some SchemaType.arr)) →
      joinPath (bp ++ [k]) ∈ (validate s (.obj kvs) bp acc).map Prod.fst)
    ∧ validate reqArrS (.obj [("k", .arr [])]) [] [] = [("k", "This field is required")]
    ∧ validate reqArrS (.obj [("k", .arr [.str "x"])]) [] [] = [] := by
  refine ⟨?_, ?_, ?_⟩
  · intro s kvs req k bp acc hty hreq hk hviol
    cases s with
    | mk t ti dd e c i th el pp it r =>
      simp only [SchemaField.type_mk] at hty
      simp only [SchemaField.required_mk] at hreq
      simp only [SchemaField.properties_mk] at hviol
      subst hty
      subst hreq
      have hv : (isEmptyish (jget kvs k)
          || isEmptyReqArray (jget kvs k) (childTypeOf pp k)) = true := by
        rcases hviol with h | ⟨h1, h2⟩
        · simp [h]
        · simp [h1, h2, isEmptyReqArray]
      cases pp with
      | some ps =>
        simp only [validate.eq_def, Option.getD_some]
        rw [if_pos trivial]
        exact (validate_keys_mono_all (sizeOf ps)).2.1 ps kvs bp _ _ le_rfl
          (reqFold_mem (some ps) kvs bp k hv req acc hk)
      | none =>
        simp only [validate.eq_def, Option.getD_some]
        rw [if_pos trivial]
        exact reqFold_mem none kvs bp k hv req acc hk
  · simp [validate.eq_def, vProps.eq_def, vItems.eq_def, reqArrS, arrF, strF, mkF,
      reqStep, setKey, joinPath, childTypeOf, isEmptyReqArray, isEmptyish, enumCheck,
      isEnumCheckable, jget, alookup, elemsOf, List.foldl]
  · simp [validate.eq_def, vProps.eq_def, vItems.eq_def, reqArrS, arrF, strF, mkF,
      reqStep, setKey, joinPath, childTypeOf, isEmptyReqArray, isEmptyish, enumCheck,
      isEnumCheckable, jget, alookup, elemsOf, List.foldl]

/-- Witness for C6's general clause: the required key `"k"` bound to the
empty string is flagged — `"k"` is a key of the resulting error map. -/
theorem C6_witness :
    "k" ∈ (validate reqArrS (.obj [("k", .str "")]) [] []).map Prod.fst := by
  have h := C6_validator_required.1 reqArrS [("k", .str "")] ["k"] "k" [] []
    (by simp [reqArrS, mkF]) (by simp [reqArrS, mkF]) (by simp)
    (Or.inl (by simp [jget, isEmptyish]))
  simpa [joinPath] using h

/-! Claim C3 — pruner idempotence.  JS records cannot carry duplicate keys;
the association-list embedding can, so well-formedness (unique property keys
at every node the pruner walks) is made explicit. -/

mutual

/-- Property-key uniqueness at every node reachable through `properties`
and `items` — automatically true of every schema that exists as a JS value. -/
def schemaWF : SchemaField → Bool
  | .mk _ _ _ _ _ _ _ _ p it _ =>
    (match p with
     | some ps => nodupKeys ps && wfProps ps
     | none => true)
    && (match it with
        | some itv => schemaWF itv
        | none => true)
termination_by s => sizeOf s
decreasing_by
  all_goals simp_wf
  all_goals first
    | omega
    | (simp; omega)

def wfProps : List (String × SchemaField) → Bool
  | [] => true
  | (_, c) :: rest => schemaWF c && wfProps rest
termination_by ps => sizeOf ps
decreasing_by
  all_goals simp_wf
  all_goals first
    | omega
    | (simp; omega)

end

theorem wfProps_mem {ps : List (String × SchemaField)} {k : String} {c : SchemaField}
    (h : wfProps ps = true) (hm : (k, c) ∈ ps) : schemaWF c = true := by
  induction ps with
  | nil => cases hm
  | cons hd rest ih =>
    obtain ⟨k0, c0⟩ := hd
    simp only [wfProps, Bool.and_eq_true] at h
    rcases List.mem_cons.mp hm with he | he
    · cases he
      exact h.1
    · exact ih h.2 he

theorem nodupKeys_cons {k : String} {c : SchemaField} {rest : List (String × SchemaField)}
    (h : nodupKeys ((k, c) :: rest) = true) :
    (rest.any fun p => p.1 == k) = false ∧ nodupKeys rest = true := by
  simp only [nodupKeys, Bool.and_eq_true, Bool.not_eq_true'] at h
  exact h

theorem sizeOf_mem_props {ps : List (String × SchemaField)} {k : String} {c : SchemaField}
    (hm : (k, c) ∈ ps) : sizeOf c < sizeOf ps := by
  have h := List.sizeOf_lt_of_mem hm
  simp only [Prod.mk.sizeOf_spec] at h
  omega

theorem jget_pruneProps {ps : List (String × SchemaField)}
    {src : List (String × JsonValue)} {k : String} {c : SchemaField}
    (hnd : nodupKeys ps = true) (hm : (k, c) ∈ ps) :
    jget (pruneProps ps src) k = pruneDataAgainstSchema c (jget src k) := by
  induction ps with
  | nil => cases hm
  | cons hd rest ih =>
    obtain ⟨k0, c0⟩ := hd
    obtain ⟨hany, hnd2⟩ := nodupKeys_cons hnd
    simp only [pruneProps]
    rcases List.mem_cons.mp hm with he | he
    · obtain ⟨hk, hc⟩ := Prod.mk.inj he
      subst hk
      subst hc
      simp [jget]
    · by_cases hkk : k0 = k
      · exfalso
        subst hkk
        have hin : (rest.any fun p => p.1 == k0) = true :=
          List.any_eq_true.mpr ⟨(k0, c), he, by simp⟩
        rw [hany] at hin
        cases hin
      · simp only [jget, if_neg hkk]
        exact ih hnd2 he

theorem pruneProps_congr : ∀ (ps : List (String × SchemaField))
    (L src : List (String × JsonValue)),
    (∀ k c, (k, c) ∈ ps → jget L k = pruneDataAgainstSchema c (jget src k)) →
    (∀ k c, (k, c) ∈ ps → ∀ x,
      pruneDataAgainstSchema c (pruneDataAgainstSchema c x) = pruneDataAgainstSchema c x) →
    pruneProps ps L = pruneProps ps src := by
  intro ps
  induction ps with
  | nil =>
    intro L src hL hidem
    simp [pruneProps]
  | cons hd rest ih =>
    intro L src hL hidem
    obtain ⟨k0, c0⟩ := hd
    simp only [pruneProps, List.cons.injEq]
    constructor
    · rw [hL k0 c0 (List.mem_cons_self _ _), hidem k0 c0 (List.mem_cons_self _ _)]
    · exact ih L src (fun k c hm => hL k c (List.mem_cons_of_mem _ hm))
        (fun k c hm => hidem k c (List.mem_cons_of_mem _ hm))
